import Mathlib

/-!
Verification of the model-selection strategies (`my_model_selectors.py`) and the
recognizer (`my_recognizer.py`) of the AIND sign-language recognizer.

The external HMM library (`hmmlearn`) is out of scope: fitting and scoring are
modelled as oracles supplied by an environment record.  A fitted model is a
`GaussianHMM` record carrying the hidden-state count and feature dimensionality
the library reports; a `none` result of an oracle models a raised exception
(`FitFailure` / `ScoreFailure`).  Log-likelihoods are modelled as rationals.
Python's `float("inf")` / `float("-inf")` sentinels of the running-best
trackers are modelled as `Option ℚ` with `none` playing the infinite sentinel,
so that an update test against the sentinel always succeeds.
-/

/-- A fitted model object as returned by the `hmmlearn` library: an identity
tag plus the `n_components` and `n_features` attributes the selectors read. -/
structure GaussianHMM where
  mId : Nat
  n_components : Nat
  n_features : Nat
deriving DecidableEq, Repr

/-- Python's `range(a, b + 1)`: the inclusive candidate range `[a, b]`. -/
def candRange (a b : Nat) : List Nat := List.range' a (b + 1 - a)

/-- First element of the list minimizing `f`, ties broken toward the earlier
element (the outcome of a running minimum updated by strict `<`). -/
def firstMinBy {α β : Type} [LinearOrder β] (f : α → β) : List α → Option α
  | [] => none
  | x :: xs =>
    match firstMinBy f xs with
    | none => some x
    | some y => if f y < f x then some y else some x

/-- First element of the list maximizing `f`, ties broken toward the earlier
element (the outcome of a running maximum updated by strict `>`). -/
def firstMaxBy {α β : Type} [LinearOrder β] (f : α → β) : List α → Option α
  | [] => none
  | x :: xs =>
    match firstMaxBy f xs with
    | none => some x
    | some y => if f x < f y then some y else some x

/-! ## SelectorBIC -/

/-- Environment of one `SelectorBIC` invocation: the configured candidate
range, the `base_model` fit oracle, the `model.score(self.X, self.lengths)`
oracle, `sum(self.lengths)`, and the `math.log` oracle (`none` models the
`ValueError` raised on a non-positive argument). -/
structure BICEnv where
  min_n : Nat
  max_n : Nat
  fit : Nat → Option GaussianHMM
  score : GaussianHMM → Option ℚ
  NSum : Nat
  mathLog : Nat → Option ℚ

/-- Body of one iteration of `SelectorBIC.select`'s `try`: fit, score,
`p = n**2 + 2*n*model.n_features - 1`, `bic = -2*logL + p*log(sum(lengths))`.
A `none` result models any exception, swallowed by `except: continue`
(`base_model` returns `None` on a fit failure, and `None.score` raises). -/
def bicTry (env : BICEnv) (n : Nat) : Option (ℚ × GaussianHMM) :=
  match env.fit n with
  | none => none
  | some m =>
    match env.score m with
    | none => none
    | some logL =>
      match env.mathLog env.NSum with
      | none => none
      | some logN =>
        some (-2 * logL + (((n : ℤ) ^ 2 + 2 * n * m.n_features - 1 : ℤ) : ℚ) * logN, m)

/-- The candidate loop of `SelectorBIC.select`: `selBic` is the running
`select_bic` (`none` models the initial `float("inf")`), `selModel` the
running `select_model`; the update fires on strict `bic < select_bic`. -/
def bicLoop (env : BICEnv) : List Nat → Option ℚ → Option GaussianHMM → Option GaussianHMM
  | [], _, selModel => selModel
  | n :: rest, selBic, selModel =>
    match bicTry env n with
    | none => bicLoop env rest selBic selModel
    | some (bic, m) =>
      match selBic with
      | none => bicLoop env rest (some bic) (some m)
      | some b =>
        if bic < b then bicLoop env rest (some bic) (some m)
        else bicLoop env rest (some b) selModel

/-- `SelectorBIC.select`: scan `range(min_n_components, max_n_components + 1)`
tracking the minimum BIC, and return `select_model` (possibly `None`). -/
def SelectorBIC.select (env : BICEnv) : Option GaussianHMM :=
  bicLoop env (candRange env.min_n env.max_n) none none

/-! ## SelectorDIC -/

/-- Environment of one `SelectorDIC` invocation: the candidate range, the
`base_model` fit oracle, the own-word scoring oracle, the list of the *other*
words' observation sets (`self.hwords` minus `self.this_word`, in dictionary
iteration order, identified by tags), and the cross-word scoring oracle. -/
structure DICEnv where
  min_n : Nat
  max_n : Nat
  fit : Nat → Option GaussianHMM
  scoreSelf : GaussianHMM → Option ℚ
  others : List Nat
  scoreOther : GaussianHMM → Nat → Option ℚ

/-- The list comprehension `[model.score(X, length) for (X, length) in
other_words]`: evaluates the scores left to right, aborting on the first
exception. -/
def scoreAll (f : Nat → Option ℚ) : List Nat → Option (List ℚ)
  | [] => some []
  | d :: rest =>
    match f d with
    | none => none
    | some l =>
      match scoreAll f rest with
      | none => none
      | some ls => some (l :: ls)

/-- Body of one iteration of `SelectorDIC.select`'s `try`: fit, own score,
score the same model on every other word's observations (the comprehension
aborts on the first exception), then
`dic = logL - sum(anti_logsL)/len(other_words)`; with zero other words the
division raises `ZeroDivisionError`, hence `none`. -/
def dicTry (env : DICEnv) (n : Nat) : Option (ℚ × GaussianHMM) :=
  match env.fit n with
  | none => none
  | some m =>
    match env.scoreSelf m with
    | none => none
    | some logL =>
      match scoreAll (env.scoreOther m) env.others with
      | none => none
      | some antis =>
        if env.others.length = 0 then none
        else some (logL - antis.sum / (env.others.length : ℚ), m)

/-- The candidate loop of `SelectorDIC.select`: `selDic` is the running
`select_dic` (`none` models the initial `float("-inf")`); the update fires on
strict `dic > select_dic`. -/
def dicLoop (env : DICEnv) : List Nat → Option ℚ → Option GaussianHMM → Option GaussianHMM
  | [], _, selModel => selModel
  | n :: rest, selDic, selModel =>
    match dicTry env n with
    | none => dicLoop env rest selDic selModel
    | some (dic, m) =>
      match selDic with
      | none => dicLoop env rest (some dic) (some m)
      | some b =>
        if b < dic then dicLoop env rest (some dic) (some m)
        else dicLoop env rest (some b) selModel

/-- `SelectorDIC.select`: scan the inclusive candidate range tracking the
maximum DIC, and return `select_model` (possibly `None`). -/
def SelectorDIC.select (env : DICEnv) : Option GaussianHMM :=
  dicLoop env (candRange env.min_n env.max_n) none none

/-! ## SelectorConstant -/

/-- Environment of one `SelectorConstant` invocation: the configured constant
state count, the configured (unused) search range, and the `base_model` fit
oracle. -/
structure ConstantEnv where
  n_constant : Nat
  min_n : Nat
  max_n : Nat
  fit : Nat → Option GaussianHMM

/-- `SelectorConstant.select`: `return self.base_model(self.n_constant)`. -/
def SelectorConstant.select (env : ConstantEnv) : Option GaussianHMM :=
  env.fit env.n_constant

/-! ## SelectorCV and the `sklearn` k-fold splitter -/

/-- Fold sizes of `sklearn.model_selection.KFold(n_splits = k)` on `m`
samples: the first `m % k` folds have `m / k + 1` samples, the rest `m / k`. -/
def kfoldSizes (m k : Nat) : List Nat :=
  (List.range k).map fun i => m / k + if i < m % k then 1 else 0

/-- Contiguous index blocks of the given sizes, starting at `s`. -/
def chunksFrom : Nat → List Nat → List (List Nat)
  | _, [] => []
  | s, c :: cs => List.range' s c :: chunksFrom (s + c) cs

/-- The held-out (test) index blocks of an unshuffled `KFold(k).split` on `m`
samples, in order: contiguous blocks of the `kfoldSizes`. -/
def kfoldTests (m k : Nat) : List (List Nat) := chunksFrom 0 (kfoldSizes m k)

/-- The training indices complementing one held-out block. -/
def kfoldTrain (m : Nat) (test : List Nat) : List Nat :=
  (List.range m).filter fun i => !(test.contains i)

/-- The (train_index, test_index) pairs yielded by `KFold(k).split` on `m`
samples with the default `shuffle=False`. -/
def kfoldSplits (m k : Nat) : List (List Nat × List Nat) :=
  (kfoldTests m k).map fun t => (kfoldTrain m t, t)

/-- Environment of one `SelectorCV` invocation: the candidate range, the
number of sequences of the word, the full-data `base_model` fit and
`model.score(self.X, self.lengths)` oracles (degenerate single-sequence path),
and the per-fold fit/score oracles, taking the train (resp. test) index list
produced by the splitter (`combine_sequences` assembles the observations from
exactly those indices). -/
structure CVEnv where
  min_n : Nat
  max_n : Nat
  seqCount : Nat
  fitFull : Nat → Option GaussianHMM
  scoreFull : GaussianHMM → Option ℚ
  fitFold : Nat → List Nat → Option GaussianHMM
  scoreFold : GaussianHMM → List Nat → Option ℚ

/-- The fold loop of `SelectorCV.select` for one candidate `n`: accumulates
`logsL` and threads the Python local variable `model` (`mv`), which is
reassigned exactly when a fold's fit succeeds — also when the subsequent
scoring of that fold fails. -/
def cvFoldLoop (env : CVEnv) (n : Nat) :
    List (List Nat × List Nat) → List ℚ → Option GaussianHMM → List ℚ × Option GaussianHMM
  | [], logsL, mv => (logsL, mv)
  | (tr, te) :: rest, logsL, mv =>
    match env.fitFold n tr with
    | none => cvFoldLoop env n rest logsL mv
    | some m =>
      match env.scoreFold m te with
      | none => cvFoldLoop env n rest logsL (some m)
      | some logL => cvFoldLoop env n rest (logsL ++ [logL]) (some m)

/-- One candidate iteration of `SelectorCV.select`, producing this `n`'s
`logsL` and the value of the `model` variable afterwards.  With exactly one
sequence the degenerate full-data path runs (`base_model` returns `None` on
failure, so `model` is reassigned unconditionally); otherwise
`KFold(n_splits=min(len(sequences), 3))` is constructed — raising `ValueError`
(modelled by `Except.error`) when that count is below 2, i.e. on a word with
no sequences — and the fold loop runs. -/
def cvTryN (env : CVEnv) (n : Nat) (mv : Option GaussianHMM) :
    Except Unit (List ℚ × Option GaussianHMM) :=
  if env.seqCount = 1 then
    Except.ok
      (match env.fitFull n with
       | none => ([], none)
       | some m =>
         match env.scoreFull m with
         | none => ([], some m)
         | some logL => ([logL], some m))
  else if min env.seqCount 3 < 2 then Except.error ()
  else Except.ok (cvFoldLoop env n (kfoldSplits env.seqCount (min env.seqCount 3)) [] mv)

/-- `np.mean` of a list of rationals. -/
def listMean (l : List ℚ) : ℚ := l.sum / (l.length : ℚ)

/-- The candidate loop of `SelectorCV.select`: `selAvg` is the running
`select_avg_logL` (`none` models the initial `float("-inf")`); a candidate
with an empty `logsL` is skipped (`if not logsL: continue`), and on an update
`select_model = model` stores the threaded `model` variable. -/
def cvLoop (env : CVEnv) :
    List Nat → Option ℚ → Option GaussianHMM → Option GaussianHMM →
    Except Unit (Option GaussianHMM)
  | [], _, selModel, _ => Except.ok selModel
  | n :: rest, selAvg, selModel, mv =>
    match cvTryN env n mv with
    | Except.error e => Except.error e
    | Except.ok (logsL, mv2) =>
      match logsL with
      | [] => cvLoop env rest selAvg selModel mv2
      | _ :: _ =>
        match selAvg with
        | none => cvLoop env rest (some (listMean logsL)) mv2 mv2
        | some b =>
          if b < listMean logsL then cvLoop env rest (some (listMean logsL)) mv2 mv2
          else cvLoop env rest (some b) selModel mv2

/-- `SelectorCV.select`: scan the inclusive candidate range tracking the
maximum average held-out log-likelihood.  `Except.error` models the uncaught
`ValueError` of `KFold` construction on a word with no sequences. -/
def SelectorCV.select (env : CVEnv) : Except Unit (Option GaussianHMM) :=
  cvLoop env (candRange env.min_n env.max_n) none none none

/-- The `logsL` samples `SelectorCV.select` collects for candidate `n`
(independent of the threaded `model` variable). -/
def cvSamples (env : CVEnv) (n : Nat) : List ℚ :=
  if env.seqCount = 1 then
    match env.fitFull n with
    | none => []
    | some m =>
      match env.scoreFull m with
      | none => []
      | some logL => [logL]
  else (cvFoldLoop env n (kfoldSplits env.seqCount (min env.seqCount 3)) [] none).1

/-- The model the `model` variable holds after candidate `n`'s fold loop,
when at least one of `n`'s folds assigned it. -/
def cvFoldLast (env : CVEnv) (n : Nat) : Option GaussianHMM :=
  (cvFoldLoop env n (kfoldSplits env.seqCount (min env.seqCount 3)) [] none).2

/-- The model associated with candidate `n` when `n` produced samples: the
full-data fit in the degenerate path, the last successful fold fit otherwise. -/
def cvModelOf (env : CVEnv) (n : Nat) : Option GaussianHMM :=
  if env.seqCount = 1 then env.fitFull n else cvFoldLast env n

/-- The model produced by the *last* fold of the given list whose fit
succeeded (`none` if every fold's fit failed). -/
def lastFitOf (env : CVEnv) (n : Nat) : List (List Nat × List Nat) → Option GaussianHMM
  | [] => none
  | (tr, _) :: rest =>
    match lastFitOf env n rest with
    | some m => some m
    | none => env.fitFold n tr

/-- The (average log-likelihood, associated model) candidate list of
`SelectorCV.select` over a given candidate range, skipping sample-less
candidates. -/
def cvCandsOf (env : CVEnv) (l : List Nat) : List (ℚ × Option GaussianHMM) :=
  l.filterMap fun n =>
    match cvSamples env n with
    | [] => none
    | _ :: _ => some (listMean (cvSamples env n), cvModelOf env n)

/-! ## Recognizer -/

/-- Environment of one `recognize` run: the scoring oracle, taking a model and
the tag of a test sequence's `(X, lengths)` pair. -/
structure RecEnv where
  score : GaussianHMM → Nat → Option ℚ

/-- The inner loop of `recognize` over the `(word, model)` items for one test
sequence.  `row` is the `probability` dictionary built so far (`⊥` records a
scoring failure), `sel`/`guess` the running best (`none` models the initial
`float("-inf")` / `None`), and `lv` the Python *function-scope* variable
`logL`, which persists across words and across test sequences and is only
reassigned on a successful score.  On a scoring failure the comparison
`if logL > select_logL` reads the stale `lv`; when `lv` was never assigned,
this raises `UnboundLocalError`, modelled by the `none` result. -/
def recWordLoop (env : RecEnv) (t : Nat) :
    List (Nat × GaussianHMM) → List (Nat × WithBot ℚ) → Option ℚ → Option Nat → Option ℚ →
    Option (List (Nat × WithBot ℚ) × Option Nat × Option ℚ)
  | [], row, _, guess, lv => some (row, guess, lv)
  | (w, m) :: rest, row, sel, guess, lv =>
    match env.score m t with
    | some l =>
      match sel with
      | none => recWordLoop env t rest (row ++ [(w, (l : WithBot ℚ))]) (some l) (some w) (some l)
      | some b =>
        if b < l then
          recWordLoop env t rest (row ++ [(w, (l : WithBot ℚ))]) (some l) (some w) (some l)
        else recWordLoop env t rest (row ++ [(w, (l : WithBot ℚ))]) (some b) guess (some l)
    | none =>
      match lv with
      | none => none
      | some l2 =>
        match sel with
        | none => recWordLoop env t rest (row ++ [(w, ⊥)]) (some l2) (some w) (some l2)
        | some b =>
          if b < l2 then recWordLoop env t rest (row ++ [(w, ⊥)]) (some l2) (some w) (some l2)
          else recWordLoop env t rest (row ++ [(w, ⊥)]) (some b) guess (some l2)

/-- The outer loop of `recognize` over the test sequences, accumulating the
`probabilities` and `guesses` lists and threading the function-scope `logL`
variable across sequences. -/
def recTestLoop (env : RecEnv) (models : List (Nat × GaussianHMM)) :
    List Nat → List (List (Nat × WithBot ℚ)) → List (Option Nat) → Option ℚ →
    Option (List (List (Nat × WithBot ℚ)) × List (Option Nat))
  | [], probs, guesses, _ => some (probs, guesses)
  | t :: rest, probs, guesses, lv =>
    match recWordLoop env t models [] none none lv with
    | none => none
    | some (row, guess, lv2) => recTestLoop env models rest (probs ++ [row]) (guesses ++ [guess]) lv2

/-- `recognize(models, test_set)`: for each test sequence in corpus order,
score it against every `(word, model)` item and track the best guess.  The
`none` result models the uncaught `UnboundLocalError` raised when a scoring
failure occurs before any score in the whole run has succeeded. -/
def recognize (env : RecEnv) (models : List (Nat × GaussianHMM)) (tests : List Nat) :
    Option (List (List (Nat × WithBot ℚ)) × List (Option Nat)) :=
  recTestLoop env models tests [] [] none

/-- The `ProbabilityRow` the recognizer records for test sequence `t`: the
score of every word's model, a failure recorded as `-infinity`. -/
def rowOf (env : RecEnv) (t : Nat) (models : List (Nat × GaussianHMM)) :
    List (Nat × WithBot ℚ) :=
  models.map fun p =>
    (p.1, match env.score p.2 t with
          | none => (⊥ : WithBot ℚ)
          | some l => (l : WithBot ℚ))

/-- The first key of the row achieving its maximum recorded value. -/
def guessOf (row : List (Nat × WithBot ℚ)) : Option Nat :=
  (firstMaxBy Prod.snd row).map Prod.fst

/-! ## Generic lemmas on first-argmin / first-argmax -/

lemma firstMinBy_mem {α β : Type} [LinearOrder β] (f : α → β) :
    ∀ (l : List α) (y : α), firstMinBy f l = some y → y ∈ l := by
  intro l
  induction l with
  | nil => intro y h; simp [firstMinBy] at h
  | cons x xs ih =>
    intro y h
    rw [firstMinBy] at h
    split at h
    · injection h with h; exact h ▸ List.mem_cons_self x xs
    · rename_i y0 hx
      split at h
      · injection h with h; exact List.mem_cons_of_mem x (ih y (h ▸ hx))
      · injection h with h; exact h ▸ List.mem_cons_self x xs

lemma firstMaxBy_mem {α β : Type} [LinearOrder β] (f : α → β) :
    ∀ (l : List α) (y : α), firstMaxBy f l = some y → y ∈ l := by
  intro l
  induction l with
  | nil => intro y h; simp [firstMaxBy] at h
  | cons x xs ih =>
    intro y h
    rw [firstMaxBy] at h
    split at h
    · injection h with h; exact h ▸ List.mem_cons_self x xs
    · rename_i y0 hx
      split at h
      · injection h with h; exact List.mem_cons_of_mem x (ih y (h ▸ hx))
      · injection h with h; exact h ▸ List.mem_cons_self x xs

lemma firstMaxBy_append_single {α β : Type} [LinearOrder β] (f : α → β) :
    ∀ (l : List α) (x : α),
      firstMaxBy f (l ++ [x]) =
        match firstMaxBy f l with
        | none => some x
        | some y => if f y < f x then some x else some y := by
  intro l
  induction l with
  | nil => intro x; simp [firstMaxBy]
  | cons a l ih =>
    intro x
    rw [List.cons_append, firstMaxBy, ih x, firstMaxBy]
    cases hl : firstMaxBy f l with
    | none => rfl
    | some z =>
      by_cases h2 : f z < f x
      · by_cases h3 : f a < f z
        · simp [h2, h3, lt_trans h3 h2]
        · by_cases h4 : f a < f x
          · simp [h2, h3, h4]
          · simp [h2, h3, h4]
      · by_cases h3 : f a < f z
        · simp [h2, h3]
        · have h5 : ¬f a < f x := fun h => h3 (lt_of_lt_of_le h (not_lt.mp h2))
          simp [h2, h3, h5]

/-! ## Characterizing the BIC and DIC candidate loops -/

lemma candRange_mem {a b n : Nat} : n ∈ candRange a b ↔ a ≤ n ∧ n ≤ b := by
  rw [candRange, List.mem_range']
  constructor
  · rintro ⟨i, hi, rfl⟩; omega
  · rintro ⟨h1, h2⟩; exact ⟨n - a, by omega, by omega⟩

lemma bicLoop_some (env : BICEnv) :
    ∀ (l : List Nat) (b : ℚ) (sm : Option GaussianHMM),
      bicLoop env l (some b) sm =
        match firstMinBy Prod.fst (l.filterMap (bicTry env)) with
        | none => sm
        | some y => if y.1 < b then some y.2 else sm := by
  intro l
  induction l with
  | nil => intro b sm; rfl
  | cons n rest ih =>
    intro b sm
    rw [bicLoop, List.filterMap_cons]
    cases ht : bicTry env n with
    | none => exact ih b sm
    | some p =>
      obtain ⟨v, m⟩ := p
      show (if v < b then bicLoop env rest (some v) (some m)
            else bicLoop env rest (some b) sm) =
          match firstMinBy Prod.fst ((v, m) :: rest.filterMap (bicTry env)) with
          | none => sm
          | some y => if y.1 < b then some y.2 else sm
      rw [firstMinBy]
      cases hc : firstMinBy Prod.fst (rest.filterMap (bicTry env)) with
      | none =>
        by_cases hvb : v < b
        · rw [if_pos hvb, ih v (some m), hc]; simp [hvb]
        · rw [if_neg hvb, ih b sm, hc]; simp [hvb]
      | some y =>
        by_cases hvb : v < b
        · rw [if_pos hvb, ih v (some m), hc]
          by_cases hyv : y.1 < v
          · simp [hyv, lt_trans hyv hvb]
          · simp [hyv, hvb]
        · rw [if_neg hvb, ih b sm, hc]
          by_cases hyv : y.1 < v
          · simp [hyv]
          · have hyb : ¬y.1 < b :=
              not_lt.mpr (le_trans (not_lt.mp hvb) (not_lt.mp hyv))
            simp [hyv, hvb, hyb]

lemma bicLoop_none (env : BICEnv) :
    ∀ (l : List Nat) (sm : Option GaussianHMM),
      bicLoop env l none sm =
        match firstMinBy Prod.fst (l.filterMap (bicTry env)) with
        | none => sm
        | some y => some y.2 := by
  intro l
  induction l with
  | nil => intro sm; rfl
  | cons n rest ih =>
    intro sm
    rw [bicLoop, List.filterMap_cons]
    cases ht : bicTry env n with
    | none => exact ih sm
    | some p =>
      obtain ⟨v, m⟩ := p
      show bicLoop env rest (some v) (some m) =
          match firstMinBy Prod.fst ((v, m) :: rest.filterMap (bicTry env)) with
          | none => sm
          | some y => some y.2
      rw [bicLoop_some env rest v (some m), firstMinBy]
      cases hc : firstMinBy Prod.fst (rest.filterMap (bicTry env)) with
      | none => rfl
      | some y =>
        by_cases hyv : y.1 < v
        · simp [hyv]
        · simp [hyv]

/-- `SelectorBIC.select` returns the model of the first candidate achieving
the minimum BIC among the successfully evaluated candidates, or `None`. -/
lemma selectorBIC_eq (env : BICEnv) :
    SelectorBIC.select env =
      match firstMinBy Prod.fst
          ((candRange env.min_n env.max_n).filterMap (bicTry env)) with
      | none => none
      | some y => some y.2 :=
  bicLoop_none env (candRange env.min_n env.max_n) none

lemma dicLoop_some (env : DICEnv) :
    ∀ (l : List Nat) (b : ℚ) (sm : Option GaussianHMM),
      dicLoop env l (some b) sm =
        match firstMaxBy Prod.fst (l.filterMap (dicTry env)) with
        | none => sm
        | some y => if b < y.1 then some y.2 else sm := by
  intro l
  induction l with
  | nil => intro b sm; rfl
  | cons n rest ih =>
    intro b sm
    rw [dicLoop, List.filterMap_cons]
    cases ht : dicTry env n with
    | none => exact ih b sm
    | some p =>
      obtain ⟨v, m⟩ := p
      show (if b < v then dicLoop env rest (some v) (some m)
            else dicLoop env rest (some b) sm) =
          match firstMaxBy Prod.fst ((v, m) :: rest.filterMap (dicTry env)) with
          | none => sm
          | some y => if b < y.1 then some y.2 else sm
      rw [firstMaxBy]
      cases hc : firstMaxBy Prod.fst (rest.filterMap (dicTry env)) with
      | none =>
        by_cases hvb : b < v
        · rw [if_pos hvb, ih v (some m), hc]; simp [hvb]
        · rw [if_neg hvb, ih b sm, hc]; simp [hvb]
      | some y =>
        by_cases hvb : b < v
        · rw [if_pos hvb, ih v (some m), hc]
          by_cases hyv : v < y.1
          · simp [hyv, lt_trans hvb hyv]
          · simp [hyv, hvb]
        · rw [if_neg hvb, ih b sm, hc]
          by_cases hyv : v < y.1
          · simp [hyv]
          · have hyb : ¬b < y.1 :=
              not_lt.mpr (le_trans (not_lt.mp hyv) (not_lt.mp hvb))
            simp [hyv, hvb, hyb]

lemma dicLoop_none (env : DICEnv) :
    ∀ (l : List Nat) (sm : Option GaussianHMM),
      dicLoop env l none sm =
        match firstMaxBy Prod.fst (l.filterMap (dicTry env)) with
        | none => sm
        | some y => some y.2 := by
  intro l
  induction l with
  | nil => intro sm; rfl
  | cons n rest ih =>
    intro sm
    rw [dicLoop, List.filterMap_cons]
    cases ht : dicTry env n with
    | none => exact ih sm
    | some p =>
      obtain ⟨v, m⟩ := p
      show dicLoop env rest (some v) (some m) =
          match firstMaxBy Prod.fst ((v, m) :: rest.filterMap (dicTry env)) with
          | none => sm
          | some y => some y.2
      rw [dicLoop_some env rest v (some m), firstMaxBy]
      cases hc : firstMaxBy Prod.fst (rest.filterMap (dicTry env)) with
      | none => rfl
      | some y =>
        by_cases hyv : v < y.1
        · simp [hyv]
        · simp [hyv]

/-- `SelectorDIC.select` returns the model of the first candidate achieving
the maximum DIC among the successfully evaluated candidates, or `None`. -/
lemma selectorDIC_eq (env : DICEnv) :
    SelectorDIC.select env =
      match firstMaxBy Prod.fst
          ((candRange env.min_n env.max_n).filterMap (dicTry env)) with
      | none => none
      | some y => some y.2 :=
  dicLoop_none env (candRange env.min_n env.max_n) none

/-! ## Characterizing the CV fold loop and candidate loop -/

lemma cvFoldLoop_fst (env : CVEnv) (n : Nat) :
    ∀ (folds : List (List Nat × List Nat)) (acc : List ℚ) (mv mv2 : Option GaussianHMM),
      (cvFoldLoop env n folds acc mv).1 = acc ++ (cvFoldLoop env n folds [] mv2).1 := by
  intro folds
  induction folds with
  | nil => intro acc mv mv2; simp [cvFoldLoop]
  | cons p rest ih =>
    intro acc mv mv2
    obtain ⟨tr, te⟩ := p
    cases hf : env.fitFold n tr with
    | none =>
      simp only [cvFoldLoop, hf]
      exact ih acc mv mv2
    | some m =>
      cases hs : env.scoreFold m te with
      | none =>
        simp only [cvFoldLoop, hf, hs]
        exact ih acc (some m) (some m)
      | some logL =>
        simp only [cvFoldLoop, hf, hs]
        rw [ih (acc ++ [logL]) (some m) mv2, ih ([] ++ [logL]) (some m) mv2,
          List.nil_append, List.append_assoc]

lemma cvFoldLoop_snd (env : CVEnv) (n : Nat) :
    ∀ (folds : List (List Nat × List Nat)) (acc : List ℚ) (mv : Option GaussianHMM),
      (cvFoldLoop env n folds acc mv).2 =
        match lastFitOf env n folds with
        | none => mv
        | some m => some m := by
  intro folds
  induction folds with
  | nil => intro acc mv; rfl
  | cons p rest ih =>
    intro acc mv
    obtain ⟨tr, te⟩ := p
    cases hf : env.fitFold n tr with
    | none =>
      simp only [cvFoldLoop, lastFitOf, hf]
      rw [ih acc mv]
      cases hl : lastFitOf env n rest with
      | none => rfl
      | some m => rfl
    | some m =>
      cases hs : env.scoreFold m te with
      | none =>
        simp only [cvFoldLoop, lastFitOf, hf, hs]
        rw [ih acc (some m)]
        cases hl : lastFitOf env n rest with
        | none => rfl
        | some m2 => rfl
      | some logL =>
        simp only [cvFoldLoop, lastFitOf, hf, hs]
        rw [ih (acc ++ [logL]) (some m)]
        cases hl : lastFitOf env n rest with
        | none => rfl
        | some m2 => rfl

lemma cvFoldLoop_fst_lastFit (env : CVEnv) (n : Nat) :
    ∀ (folds : List (List Nat × List Nat)),
      (cvFoldLoop env n folds [] none).1 ≠ [] →
      ∃ m, lastFitOf env n folds = some m := by
  intro folds
  induction folds with
  | nil => intro h; exact absurd rfl h
  | cons p rest ih =>
    intro h
    obtain ⟨tr, te⟩ := p
    cases hf : env.fitFold n tr with
    | none =>
      simp only [cvFoldLoop, hf] at h
      simp only [lastFitOf]
      obtain ⟨m, hm⟩ := ih h
      exact ⟨m, by rw [hm]⟩
    | some m =>
      simp only [lastFitOf]
      cases hl : lastFitOf env n rest with
      | none => exact ⟨m, by rw [hf]⟩
      | some m2 => exact ⟨m2, rfl⟩

lemma cvSamples_foldPath (env : CVEnv) (n : Nat) (h1 : env.seqCount ≠ 1) :
    ∀ (mv : Option GaussianHMM),
      (cvFoldLoop env n (kfoldSplits env.seqCount (min env.seqCount 3)) [] mv).1 =
        cvSamples env n := by
  intro mv
  rw [cvSamples, if_neg h1]
  exact cvFoldLoop_fst env n _ [] mv none

lemma cvTryN_ok (env : CVEnv) (hne : env.seqCount ≠ 0) (n : Nat) (mv : Option GaussianHMM) :
    ∃ mv2, cvTryN env n mv = Except.ok (cvSamples env n, mv2) ∧
      (cvSamples env n ≠ [] → mv2 = cvModelOf env n) := by
  by_cases h1 : env.seqCount = 1
  · rw [cvTryN, if_pos h1, cvSamples, if_pos h1, cvModelOf, if_pos h1]
    cases hf : env.fitFull n with
    | none =>
      simp only [hf]
      exact ⟨none, rfl, fun h => absurd rfl h⟩
    | some m =>
      cases hs : env.scoreFull m with
      | none =>
        simp only [hf, hs]
        exact ⟨some m, rfl, fun h => absurd rfl h⟩
      | some logL =>
        simp only [hf, hs]
        exact ⟨some m, rfl, fun _ => rfl⟩
  · have hk : ¬min env.seqCount 3 < 2 := by omega
    rw [cvTryN, if_neg h1, if_neg hk]
    refine ⟨(cvFoldLoop env n (kfoldSplits env.seqCount (min env.seqCount 3)) [] mv).2, ?_, ?_⟩
    · rw [← cvSamples_foldPath env n h1 mv]
    · intro hs
      rw [cvModelOf, if_neg h1, cvFoldLast]
      rw [cvFoldLoop_snd env n _ [] mv, cvFoldLoop_snd env n _ [] none]
      rw [cvSamples, if_neg h1] at hs
      obtain ⟨m, hm⟩ := cvFoldLoop_fst_lastFit env n _ hs
      rw [hm]

lemma cvLoop_some (env : CVEnv) (hne : env.seqCount ≠ 0) :
    ∀ (l : List Nat) (b : ℚ) (sm mv : Option GaussianHMM),
      cvLoop env l (some b) sm mv =
        Except.ok
          (match firstMaxBy Prod.fst (cvCandsOf env l) with
           | none => sm
           | some y => if b < y.1 then y.2 else sm) := by
  intro l
  induction l with
  | nil => intro b sm mv; rfl
  | cons n rest ih =>
    intro b sm mv
    obtain ⟨mv2, heq, hmod⟩ := cvTryN_ok env hne n mv
    rw [cvLoop, heq]
    rw [cvCandsOf, List.filterMap_cons]
    cases hs : cvSamples env n with
    | nil =>
      simp only [hs]
      rw [ih b sm mv2, cvCandsOf]
    | cons l0 ls =>
      have hmod2 : mv2 = cvModelOf env n := hmod (by rw [hs]; simp)
      simp only [hs]
      rw [firstMaxBy]
      cases hc : firstMaxBy Prod.fst (cvCandsOf env rest) with
      | none =>
        rw [cvCandsOf] at hc
        by_cases hvb : b < listMean (l0 :: ls)
        · rw [if_pos hvb, ih (listMean (l0 :: ls)) mv2 mv2, cvCandsOf, hc]
          simp [hvb, hmod2]
        · rw [if_neg hvb, ih b sm mv2, cvCandsOf, hc]
          simp [hvb]
      | some y =>
        rw [cvCandsOf] at hc
        by_cases hvb : b < listMean (l0 :: ls)
        · rw [if_pos hvb, ih (listMean (l0 :: ls)) mv2 mv2, cvCandsOf, hc]
          by_cases hyv : listMean (l0 :: ls) < y.1
          · simp [hyv, lt_trans hvb hyv, hmod2]
          · simp [hyv, hvb, hmod2]
        · rw [if_neg hvb, ih b sm mv2, cvCandsOf, hc]
          by_cases hyv : listMean (l0 :: ls) < y.1
          · simp [hyv]
          · have hyb : ¬b < y.1 :=
              not_lt.mpr (le_trans (not_lt.mp hyv) (not_lt.mp hvb))
            simp [hyv, hvb, hyb]

lemma cvLoop_none (env : CVEnv) (hne : env.seqCount ≠ 0) :
    ∀ (l : List Nat) (sm mv : Option GaussianHMM),
      cvLoop env l none sm mv =
        Except.ok
          (match firstMaxBy Prod.fst (cvCandsOf env l) with
           | none => sm
           | some y => y.2) := by
  intro l
  induction l with
  | nil => intro sm mv; rfl
  | cons n rest ih =>
    intro sm mv
    obtain ⟨mv2, heq, hmod⟩ := cvTryN_ok env hne n mv
    rw [cvLoop, heq]
    rw [cvCandsOf, List.filterMap_cons]
    cases hs : cvSamples env n with
    | nil =>
      simp only [hs]
      rw [ih sm mv2, cvCandsOf]
    | cons l0 ls =>
      have hmod2 : mv2 = cvModelOf env n := hmod (by rw [hs]; simp)
      simp only [hs]
      rw [firstMaxBy]
      rw [cvLoop_some env hne rest (listMean (l0 :: ls)) mv2 mv2]
      cases hc : firstMaxBy Prod.fst (cvCandsOf env rest) with
      | none =>
        rw [cvCandsOf] at hc
        rw [hc]
        simp [hmod2]
      | some y =>
        rw [cvCandsOf] at hc
        rw [hc]
        by_cases hyv : listMean (l0 :: ls) < y.1
        · simp [hyv]
        · simp [hyv, hmod2]

/-- `SelectorCV.select` on a word with at least one sequence: the model of the
first candidate achieving the maximum average held-out log-likelihood. -/
lemma selectorCV_eq (env : CVEnv) (hne : env.seqCount ≠ 0) :
    SelectorCV.select env =
      Except.ok
        (match firstMaxBy Prod.fst (cvCandsOf env (candRange env.min_n env.max_n)) with
         | none => none
         | some y => y.2) :=
  cvLoop_none env hne (candRange env.min_n env.max_n) none none

/-! ## Structure of the k-fold split -/

lemma chunksFrom_length : ∀ (cs : List Nat) (s : Nat), (chunksFrom s cs).length = cs.length := by
  intro cs
  induction cs with
  | nil => intro s; rfl
  | cons c cs ih => intro s; simp [chunksFrom, ih]

lemma kfoldSplits_length (m k : Nat) : (kfoldSplits m k).length = k := by
  rw [kfoldSplits, List.length_map, kfoldTests, chunksFrom_length, kfoldSizes,
    List.length_map, List.length_range]

lemma range'_add_append : ∀ (a : Nat) (s b : Nat),
    List.range' s a ++ List.range' (s + a) b = List.range' s (a + b) := by
  intro a
  induction a with
  | zero => intro s b; simp
  | succ a ih =>
    intro s b
    rw [List.range'_succ, show a + 1 + b = (a + b) + 1 by omega, List.range'_succ,
      List.cons_append, show s + (a + 1) = (s + 1) + a by omega, ih (s + 1) b]

lemma chunksFrom_flatten : ∀ (cs : List Nat) (s : Nat),
    (chunksFrom s cs).flatten = List.range' s cs.sum := by
  intro cs
  induction cs with
  | nil => intro s; rfl
  | cons c cs ih =>
    intro s
    rw [chunksFrom, List.flatten_cons, ih (s + c), List.sum_cons, range'_add_append]

lemma kfoldSizes_sum (m k : Nat) (hk : 0 < k) : (kfoldSizes m k).sum = m := by
  have key : ∀ (j : Nat) (c r : Nat),
      ((List.range j).map fun i => c + if i < r then 1 else 0).sum = j * c + min r j := by
    intro j
    induction j with
    | zero => intro c r; simp
    | succ j ih =>
      intro c r
      rw [List.range_succ, List.map_append, List.sum_append, ih c r]
      have hmul : (j + 1) * c = j * c + c := Nat.succ_mul j c
      by_cases hj : j < r
      · simp only [List.map_cons, List.map_nil, if_pos hj, List.sum_cons, List.sum_nil]
        omega
      · simp only [List.map_cons, List.map_nil, if_neg hj, List.sum_cons, List.sum_nil]
        omega
  rw [kfoldSizes, key k (m / k) (m % k)]
  have h1 : m % k < k := Nat.mod_lt m hk
  have h2 : k * (m / k) + m % k = m := Nat.div_add_mod m k
  omega

/-- Every sample index `0, …, m-1` appears in exactly one held-out fold, in
order: the concatenation of the test folds is exactly `range m`. -/
lemma kfoldTests_flatten (m k : Nat) (hk : 0 < k) :
    (kfoldTests m k).flatten = List.range m := by
  rw [kfoldTests, chunksFrom_flatten, kfoldSizes_sum m k hk, List.range_eq_range']

/-! ## Characterizing the recognizer -/

lemma recWordLoop_row (env : RecEnv) (t : Nat) :
    ∀ (ms : List (Nat × GaussianHMM)) (row : List (Nat × WithBot ℚ)) (sel : Option ℚ)
      (guess : Option Nat) (lv : Option ℚ)
      (out : List (Nat × WithBot ℚ) × Option Nat × Option ℚ),
      recWordLoop env t ms row sel guess lv = some out →
      out.1 = row ++ rowOf env t ms := by
  intro ms
  induction ms with
  | nil =>
    intro row sel guess lv out h
    simp only [recWordLoop, Option.some.injEq] at h
    rw [← h]
    simp [rowOf]
  | cons p rest ih =>
    intro row sel guess lv out h
    obtain ⟨w, m⟩ := p
    have hrow : row ++ rowOf env t ((w, m) :: rest) =
        (row ++ [(w, match env.score m t with
                     | none => (⊥ : WithBot ℚ)
                     | some l => (l : WithBot ℚ))]) ++ rowOf env t rest := by
      simp [rowOf, List.append_assoc]
    rw [hrow]
    cases hs : env.score m t with
    | some l =>
      cases sel with
      | none =>
        simp only [recWordLoop, hs] at h
        rw [ih _ _ _ _ _ h]
      | some b =>
        simp only [recWordLoop, hs] at h
        by_cases hc : b < l
        · rw [if_pos hc] at h
          rw [ih _ _ _ _ _ h]
        · rw [if_neg hc] at h
          rw [ih _ _ _ _ _ h]
    | none =>
      cases lv with
      | none =>
        simp only [recWordLoop, hs] at h
        exact Option.noConfusion h
      | some l2 =>
        cases sel with
        | none =>
          simp only [recWordLoop, hs] at h
          rw [ih _ _ _ _ _ h]
        | some b =>
          simp only [recWordLoop, hs] at h
          by_cases hc : b < l2
          · rw [if_pos hc] at h
            rw [ih _ _ _ _ _ h]
          · rw [if_neg hc] at h
            rw [ih _ _ _ _ _ h]

lemma recWordLoop_inv (env : RecEnv) (t : Nat) :
    ∀ (ms : List (Nat × GaussianHMM)) (row : List (Nat × WithBot ℚ)) (sel : ℚ)
      (g : Nat) (l2 : ℚ),
      firstMaxBy Prod.snd row = some (g, (sel : WithBot ℚ)) →
      l2 ≤ sel →
      ∃ lv2, recWordLoop env t ms row (some sel) (some g) (some l2) =
        some (row ++ rowOf env t ms,
          (firstMaxBy Prod.snd (row ++ rowOf env t ms)).map Prod.fst, lv2) := by
  intro ms
  induction ms with
  | nil =>
    intro row sel g l2 hmax hle
    refine ⟨some l2, ?_⟩
    simp only [recWordLoop]
    simp [rowOf, hmax]
  | cons p rest ih =>
    intro row sel g l2 hmax hle
    obtain ⟨w, m⟩ := p
    cases hs : env.score m t with
    | some l =>
      have happ : row ++ [(w, (l : WithBot ℚ))] ++ rowOf env t rest =
          row ++ rowOf env t ((w, m) :: rest) := by
        simp [rowOf, hs, List.append_assoc]
      by_cases hc : sel < l
      · have hmax2 : firstMaxBy Prod.snd (row ++ [(w, (l : WithBot ℚ))]) =
            some (w, (l : WithBot ℚ)) := by
          rw [firstMaxBy_append_single, hmax]
          have : ((sel : WithBot ℚ)) < (l : WithBot ℚ) := by exact_mod_cast hc
          simp [this]
        obtain ⟨lv2, hrec⟩ := ih (row ++ [(w, (l : WithBot ℚ))]) l w l hmax2 le_rfl
        refine ⟨lv2, ?_⟩
        have hstep : recWordLoop env t ((w, m) :: rest) row (some sel) (some g) (some l2) =
            recWordLoop env t rest (row ++ [(w, (l : WithBot ℚ))]) (some l) (some w) (some l) := by
          simp only [recWordLoop, hs, if_pos hc]
        rw [hstep, hrec, happ]
      · have hmax2 : firstMaxBy Prod.snd (row ++ [(w, (l : WithBot ℚ))]) =
            some (g, (sel : WithBot ℚ)) := by
          rw [firstMaxBy_append_single, hmax]
          have : ¬((sel : WithBot ℚ)) < (l : WithBot ℚ) := by exact_mod_cast hc
          simp [this]
        obtain ⟨lv2, hrec⟩ := ih (row ++ [(w, (l : WithBot ℚ))]) sel g l hmax2 (not_lt.mp hc)
        refine ⟨lv2, ?_⟩
        have hstep : recWordLoop env t ((w, m) :: rest) row (some sel) (some g) (some l2) =
            recWordLoop env t rest (row ++ [(w, (l : WithBot ℚ))]) (some sel) (some g) (some l) := by
          simp only [recWordLoop, hs, if_neg hc]
        rw [hstep, hrec, happ]
    | none =>
      have happ : row ++ [(w, (⊥ : WithBot ℚ))] ++ rowOf env t rest =
          row ++ rowOf env t ((w, m) :: rest) := by
        simp [rowOf, hs, List.append_assoc]
      have hc : ¬sel < l2 := not_lt.mpr hle
      have hmax2 : firstMaxBy Prod.snd (row ++ [(w, (⊥ : WithBot ℚ))]) =
          some (g, (sel : WithBot ℚ)) := by
        rw [firstMaxBy_append_single, hmax]
        have : ¬((sel : WithBot ℚ)) < (⊥ : WithBot ℚ) := not_lt.mpr bot_le
        simp [this]
      obtain ⟨lv2, hrec⟩ := ih (row ++ [(w, (⊥ : WithBot ℚ))]) sel g l2 hmax2 hle
      refine ⟨lv2, ?_⟩
      have hstep : recWordLoop env t ((w, m) :: rest) row (some sel) (some g) (some l2) =
          recWordLoop env t rest (row ++ [(w, (⊥ : WithBot ℚ))]) (some sel) (some g) (some l2) := by
        simp only [recWordLoop, hs, if_neg hc]
      rw [hstep, hrec, happ]

lemma recWordLoop_fresh (env : RecEnv) (t : Nat) (w1 : Nat) (m1 : GaussianHMM)
    (rest : List (Nat × GaussianHMM)) (l1 : ℚ) (hs : env.score m1 t = some l1)
    (lv : Option ℚ) :
    ∃ lv2, recWordLoop env t ((w1, m1) :: rest) [] none none lv =
      some (rowOf env t ((w1, m1) :: rest),
        guessOf (rowOf env t ((w1, m1) :: rest)), lv2) := by
  have h0 : firstMaxBy Prod.snd [(w1, (l1 : WithBot ℚ))] = some (w1, (l1 : WithBot ℚ)) := by
    simp [firstMaxBy]
  obtain ⟨lv2, hrec⟩ := recWordLoop_inv env t rest [(w1, (l1 : WithBot ℚ))] l1 w1 l1 h0 le_rfl
  refine ⟨lv2, ?_⟩
  have hstep : recWordLoop env t ((w1, m1) :: rest) [] none none lv =
      recWordLoop env t rest [(w1, (l1 : WithBot ℚ))] (some l1) (some w1) (some l1) := by
    simp only [recWordLoop, hs, List.nil_append]
  have happ : [(w1, (l1 : WithBot ℚ))] ++ rowOf env t rest = rowOf env t ((w1, m1) :: rest) := by
    simp [rowOf, hs]
  rw [hstep, hrec, guessOf, happ]

lemma recTestLoop_spec (env : RecEnv) (models : List (Nat × GaussianHMM)) :
    ∀ (tests : List Nat) (accp : List (List (Nat × WithBot ℚ))) (accg : List (Option Nat))
      (lv : Option ℚ) (probs : List (List (Nat × WithBot ℚ))) (guesses : List (Option Nat)),
      recTestLoop env models tests accp accg lv = some (probs, guesses) →
      probs = accp ++ tests.map (fun t => rowOf env t models) ∧
      ∃ gl, guesses = accg ++ gl ∧ gl.length = tests.length ∧
        ∀ (j t1 w1 : Nat) (m1 : GaussianHMM) (mrest : List (Nat × GaussianHMM)) (l1 : ℚ),
          tests[j]? = some t1 → models = (w1, m1) :: mrest → env.score m1 t1 = some l1 →
          gl[j]? = some (guessOf (rowOf env t1 models)) := by
  intro tests
  induction tests with
  | nil =>
    intro accp accg lv probs guesses h
    simp only [recTestLoop, Option.some.injEq, Prod.mk.injEq] at h
    obtain ⟨rfl, rfl⟩ := h
    refine ⟨by simp, [], by simp, rfl, ?_⟩
    intro j t1 w1 m1 mrest l1 hj
    simp at hj
  | cons t rest ih =>
    intro accp accg lv probs guesses h
    rw [recTestLoop] at h
    cases hw : recWordLoop env t models [] none none lv with
    | none =>
      rw [hw] at h
      exact Option.noConfusion h
    | some out =>
      obtain ⟨row, guess, lv2⟩ := out
      rw [hw] at h
      obtain ⟨h1, gl, h2, h3, h4⟩ := ih (accp ++ [row]) (accg ++ [guess]) lv2 probs guesses h
      have hrow : row = rowOf env t models := by
        have hr := recWordLoop_row env t models [] none none lv (row, guess, lv2) hw
        simpa using hr
      refine ⟨by rw [h1, hrow]; simp, guess :: gl, by rw [h2]; simp, by simp [h3], ?_⟩
      intro j t1 w1 m1 mrest l1 hj hm hsc
      cases j with
      | zero =>
        simp only [List.getElem?_cons_zero, Option.some.injEq] at hj ⊢
        subst hj
        subst hm
        obtain ⟨lv2x, hws⟩ := recWordLoop_fresh env t w1 m1 mrest l1 hsc lv
        rw [hws] at hw
        injection hw with hw
        exact (congrArg (fun q => q.2.1) hw).symm
      | succ j =>
        simp only [List.getElem?_cons_succ] at hj ⊢
        exact h4 j t1 w1 m1 mrest l1 hj hm hsc

/-! ## Small auxiliary facts -/

lemma scoreAll_none_of_mem (f : Nat → Option ℚ) :
    ∀ (l : List Nat) (d : Nat), d ∈ l → f d = none → scoreAll f l = none := by
  intro l
  induction l with
  | nil => intro d hd; simp at hd
  | cons a l ih =>
    intro d hd hf
    rcases List.mem_cons.mp hd with h | h
    · subst h
      simp [scoreAll, hf]
    · rw [scoreAll]
      cases hfa : f a with
      | none => rfl
      | some v => rw [ih d h hf]

lemma bicTry_fit (env : BICEnv) (n : Nat) (y : ℚ × GaussianHMM) :
    bicTry env n = some y → env.fit n = some y.2 := by
  intro h
  cases hf : env.fit n with
  | none =>
    simp only [bicTry, hf] at h
    exact Option.noConfusion h
  | some m =>
    cases hs : env.score m with
    | none =>
      simp only [bicTry, hf, hs] at h
      exact Option.noConfusion h
    | some logL =>
      cases hl : env.mathLog env.NSum with
      | none =>
        simp only [bicTry, hf, hs, hl] at h
        exact Option.noConfusion h
      | some logN =>
        simp only [bicTry, hf, hs, hl, Option.some.injEq] at h
        rw [← h]

lemma dicTry_fit (env : DICEnv) (n : Nat) (y : ℚ × GaussianHMM) :
    dicTry env n = some y → env.fit n = some y.2 := by
  intro h
  cases hf : env.fit n with
  | none =>
    simp only [dicTry, hf] at h
    exact Option.noConfusion h
  | some m =>
    cases hs : env.scoreSelf m with
    | none =>
      simp only [dicTry, hf, hs] at h
      exact Option.noConfusion h
    | some logL =>
      cases ha : scoreAll (env.scoreOther m) env.others with
      | none =>
        simp only [dicTry, hf, hs, ha] at h
        exact Option.noConfusion h
      | some antis =>
        by_cases hz : env.others.length = 0
        · simp only [dicTry, hf, hs, ha, if_pos hz] at h
          exact Option.noConfusion h
        · simp only [dicTry, hf, hs, ha, if_neg hz, Option.some.injEq] at h
          rw [← h]

lemma firstMinBy_of_ne_nil {α β : Type} [LinearOrder β] (f : α → β) :
    ∀ (l : List α), l ≠ [] → ∃ y, firstMinBy f l = some y := by
  intro l hl
  cases l with
  | nil => exact absurd rfl hl
  | cons x xs =>
    rw [firstMinBy]
    cases hx : firstMinBy f xs with
    | none => exact ⟨x, rfl⟩
    | some y =>
      by_cases hc : f y < f x
      · exact ⟨y, by simp [hc]⟩
      · exact ⟨x, by simp [hc]⟩

lemma firstMaxBy_of_ne_nil {α β : Type} [LinearOrder β] (f : α → β) :
    ∀ (l : List α), l ≠ [] → ∃ y, firstMaxBy f l = some y := by
  intro l hl
  cases l with
  | nil => exact absurd rfl hl
  | cons x xs =>
    rw [firstMaxBy]
    cases hx : firstMaxBy f xs with
    | none => exact ⟨x, rfl⟩
    | some y =>
      by_cases hc : f x < f y
      · exact ⟨y, by simp [hc]⟩
      · exact ⟨x, by simp [hc]⟩

lemma lastFitOf_mem (env : CVEnv) (n : Nat) :
    ∀ (folds : List (List Nat × List Nat)) (m : GaussianHMM),
      lastFitOf env n folds = some m → ∃ p ∈ folds, env.fitFold n p.1 = some m := by
  intro folds
  induction folds with
  | nil => intro m h; exact Option.noConfusion h
  | cons p rest ih =>
    intro m h
    obtain ⟨tr, te⟩ := p
    rw [lastFitOf] at h
    cases hl : lastFitOf env n rest with
    | none =>
      rw [hl] at h
      exact ⟨(tr, te), List.mem_cons_self _ _, h⟩
    | some m2 =>
      rw [hl] at h
      injection h with h
      subst h
      obtain ⟨q, hq, hfit⟩ := ih m2 hl
      exact ⟨q, List.mem_cons_of_mem _ hq, hfit⟩

lemma cvFoldLast_eq_lastFitOf (env : CVEnv) (n : Nat) :
    cvFoldLast env n = lastFitOf env n (kfoldSplits env.seqCount (min env.seqCount 3)) := by
  rw [cvFoldLast, cvFoldLoop_snd]
  cases lastFitOf env n (kfoldSplits env.seqCount (min env.seqCount 3)) with
  | none => rfl
  | some m => rfl

lemma cvModelOf_some (env : CVEnv) (n : Nat) (hs : cvSamples env n ≠ []) :
    ∃ m, cvModelOf env n = some m := by
  by_cases h1 : env.seqCount = 1
  · rw [cvSamples, if_pos h1] at hs
    rw [cvModelOf, if_pos h1]
    cases hf : env.fitFull n with
    | none => rw [hf] at hs; exact absurd rfl hs
    | some m => exact ⟨m, rfl⟩
  · rw [cvSamples, if_neg h1] at hs
    rw [cvModelOf, if_neg h1, cvFoldLast_eq_lastFitOf]
    exact cvFoldLoop_fst_lastFit env n _ hs

lemma cvFoldLoop_congr (env env2 : CVEnv) (n : Nat)
    (hf : env2.fitFold = env.fitFold) (hs : env2.scoreFold = env.scoreFold) :
    ∀ (folds : List (List Nat × List Nat)) (acc : List ℚ) (mv : Option GaussianHMM),
      cvFoldLoop env2 n folds acc mv = cvFoldLoop env n folds acc mv := by
  intro folds
  induction folds with
  | nil => intro acc mv; rfl
  | cons p rest ih =>
    intro acc mv
    obtain ⟨tr, te⟩ := p
    cases hfit : env.fitFold n tr with
    | none =>
      simp only [cvFoldLoop, hf, hs, hfit]
      exact ih acc mv
    | some m =>
      cases hsc : env.scoreFold m te with
      | none =>
        simp only [cvFoldLoop, hf, hs, hfit, hsc]
        exact ih acc (some m)
      | some logL =>
        simp only [cvFoldLoop, hf, hs, hfit, hsc]
        exact ih (acc ++ [logL]) (some m)

lemma cvSamples_no_full (env : CVEnv) (f : Nat → Option GaussianHMM)
    (g : GaussianHMM → Option ℚ) (h1 : env.seqCount ≠ 1) (n : Nat) :
    cvSamples { env with fitFull := f, scoreFull := g } n = cvSamples env n := by
  rw [cvSamples, cvSamples, if_neg h1, if_neg h1]
  rw [cvFoldLoop_congr env { env with fitFull := f, scoreFull := g } n rfl rfl]

lemma cvModelOf_no_full (env : CVEnv) (f : Nat → Option GaussianHMM)
    (g : GaussianHMM → Option ℚ) (h1 : env.seqCount ≠ 1) (n : Nat) :
    cvModelOf { env with fitFull := f, scoreFull := g } n = cvModelOf env n := by
  rw [cvModelOf, cvModelOf, if_neg h1, if_neg h1, cvFoldLast, cvFoldLast]
  rw [cvFoldLoop_congr env { env with fitFull := f, scoreFull := g } n rfl rfl]

lemma cvCandsOf_no_full (env : CVEnv) (f : Nat → Option GaussianHMM)
    (g : GaussianHMM → Option ℚ) (h1 : env.seqCount ≠ 1) (l : List Nat) :
    cvCandsOf { env with fitFull := f, scoreFull := g } l = cvCandsOf env l := by
  rw [cvCandsOf, cvCandsOf]
  congr 1
  funext n
  rw [cvSamples_no_full env f g h1 n, cvModelOf_no_full env f g h1 n]

lemma cvSamples_no_fold (env : CVEnv) (f : Nat → List Nat → Option GaussianHMM)
    (g : GaussianHMM → List Nat → Option ℚ) (h1 : env.seqCount = 1) (n : Nat) :
    cvSamples { env with fitFold := f, scoreFold := g } n = cvSamples env n := by
  rw [cvSamples, cvSamples, if_pos h1, if_pos h1]

lemma cvModelOf_no_fold (env : CVEnv) (f : Nat → List Nat → Option GaussianHMM)
    (g : GaussianHMM → List Nat → Option ℚ) (h1 : env.seqCount = 1) (n : Nat) :
    cvModelOf { env with fitFold := f, scoreFold := g } n = cvModelOf env n := by
  rw [cvModelOf, cvModelOf, if_pos h1, if_pos h1]

lemma cvCandsOf_no_fold (env : CVEnv) (f : Nat → List Nat → Option GaussianHMM)
    (g : GaussianHMM → List Nat → Option ℚ) (h1 : env.seqCount = 1) (l : List Nat) :
    cvCandsOf { env with fitFold := f, scoreFold := g } l = cvCandsOf env l := by
  rw [cvCandsOf, cvCandsOf]
  congr 1
  funext n
  rw [cvSamples_no_fold env f g h1 n, cvModelOf_no_fold env f g h1 n]

/-! ## Concrete environments used by witnesses and counterexamples -/

/-- A BIC environment in which every candidate fits (`n` states, 2 features)
and scores `4`, with `ln(sum(lengths))` stubbed to `1`. -/
def wBicEnv : BICEnv :=
  { min_n := 2, max_n := 3, fit := fun n => some ⟨n, n, 2⟩,
    score := fun _ => some 4, NSum := 10, mathLog := fun _ => some 1 }

/-- A DIC environment with exactly one other word, every fit and score
succeeding. -/
def wDicEnv : DICEnv :=
  { min_n := 2, max_n := 3, fit := fun n => some ⟨n, n, 2⟩,
    scoreSelf := fun _ => some 4, others := [9], scoreOther := fun _ _ => some 2 }

/-- A DIC environment for a one-word vocabulary (no other words), every fit
and score succeeding. -/
def w10Env : DICEnv :=
  { min_n := 2, max_n := 3, fit := fun n => some ⟨n, n, 2⟩,
    scoreSelf := fun _ => some 4, scoreOther := fun _ _ => some 2, others := [] }

/-! ## C1 -/

/-- C1: for every candidate `n` in the inclusive range whose fit and scoring
succeed, `SelectorBIC.select` computes `p = n^2 + 2*n*d - 1` (`d` the feature
dimensionality of the fitted model) and `BIC = -2*logL + p*ln(N)` with
`N = sum(lengths)` (`ln N` supplied by the `math.log` oracle); it returns the
model of the first candidate achieving the minimal BIC among all successful
candidates (ties to the lowest `n`, by strict `<`), and `None` when every
candidate fails. -/
theorem selectorBIC_bic_spec (env : BICEnv) (logN : ℚ)
    (hlog : env.mathLog env.NSum = some logN) :
    (∀ (n : Nat) (m : GaussianHMM) (logL : ℚ),
      env.fit n = some m → env.score m = some logL →
      bicTry env n =
        some (-2 * logL + ((n : ℚ) ^ 2 + 2 * n * m.n_features - 1) * logN, m)) ∧
    SelectorBIC.select env =
      (firstMinBy Prod.fst
        ((candRange env.min_n env.max_n).filterMap (bicTry env))).map Prod.snd ∧
    ((candRange env.min_n env.max_n).filterMap (bicTry env) = [] →
      SelectorBIC.select env = none) := by
  refine ⟨?_, ?_, ?_⟩
  · intro n m logL hf hs
    have hp : (((n : ℤ) ^ 2 + 2 * n * m.n_features - 1 : ℤ) : ℚ) =
        (n : ℚ) ^ 2 + 2 * n * m.n_features - 1 := by
      push_cast
      ring
    simp only [bicTry, hf, hs, hlog, hp]
  · rw [selectorBIC_eq]
    cases firstMinBy Prod.fst ((candRange env.min_n env.max_n).filterMap (bicTry env)) with
    | none => rfl
    | some y => rfl
  · intro h
    rw [selectorBIC_eq, h]
    rfl

/-- Witness for C1 at `wBicEnv` (the `math.log` hypothesis discharged by
`rfl`, the per-candidate hypotheses at `n = 2` by `rfl`). -/
theorem selectorBIC_bic_spec_witness :
    bicTry wBicEnv 2 = some (3, ⟨2, 2, 2⟩) ∧
    SelectorBIC.select wBicEnv =
      (firstMinBy Prod.fst
        ((candRange wBicEnv.min_n wBicEnv.max_n).filterMap (bicTry wBicEnv))).map Prod.snd := by
  constructor
  · have h := (selectorBIC_bic_spec wBicEnv 1 rfl).1 2 ⟨2, 2, 2⟩ 4 rfl rfl
    rw [h]
    norm_num
  · exact (selectorBIC_bic_spec wBicEnv 1 rfl).2.1

/-! ## C4 -/

/-- C4: for every vocabulary with at least two words (at least one other
word), a candidate whose own fit and scoring succeed and whose scoring against
every other word succeeds gets `DIC = logL - sum(anti_logsL)/(M-1)` (`M-1` =
the number of other words); if scoring any single other word fails the whole
candidate is skipped (all-or-nothing); and `SelectorDIC.select` returns the
model of the first candidate achieving the maximum DIC (strict `>` tracking,
ties to the lowest `n`). -/
theorem selectorDIC_dic_spec (env : DICEnv) (hM : env.others ≠ []) :
    (∀ (n : Nat) (m : GaussianHMM) (logL : ℚ) (antis : List ℚ),
      env.fit n = some m → env.scoreSelf m = some logL →
      scoreAll (env.scoreOther m) env.others = some antis →
      dicTry env n = some (logL - antis.sum / (env.others.length : ℚ), m)) ∧
    (∀ (n : Nat) (m : GaussianHMM), env.fit n = some m →
      (∃ d ∈ env.others, env.scoreOther m d = none) → dicTry env n = none) ∧
    SelectorDIC.select env =
      (firstMaxBy Prod.fst
        ((candRange env.min_n env.max_n).filterMap (dicTry env))).map Prod.snd := by
  have hlen : ¬env.others.length = 0 := fun h => hM (List.length_eq_zero.mp h)
  refine ⟨?_, ?_, ?_⟩
  · intro n m logL antis hf hs ha
    simp only [dicTry, hf, hs, ha, if_neg hlen]
  · intro n m hf hex
    obtain ⟨d, hd, hdn⟩ := hex
    have ha := scoreAll_none_of_mem (env.scoreOther m) env.others d hd hdn
    cases hs : env.scoreSelf m with
    | none => simp only [dicTry, hf, hs]
    | some logL => simp only [dicTry, hf, hs, ha]
  · rw [selectorDIC_eq]
    cases firstMaxBy Prod.fst ((candRange env.min_n env.max_n).filterMap (dicTry env)) with
    | none => rfl
    | some y => rfl

/-- Witness for C4 at `wDicEnv`: one other word scoring `2`, own score `4`,
so `DIC = 4 - 2/1 = 2` for candidate `n = 2`. -/
theorem selectorDIC_dic_spec_witness :
    dicTry wDicEnv 2 = some (2, ⟨2, 2, 2⟩) ∧
    SelectorDIC.select wDicEnv =
      (firstMaxBy Prod.fst
        ((candRange wDicEnv.min_n wDicEnv.max_n).filterMap (dicTry wDicEnv))).map Prod.snd := by
  constructor
  · have h := (selectorDIC_dic_spec wDicEnv (by simp [wDicEnv])).1 2 ⟨2, 2, 2⟩ 4 [2] rfl rfl rfl
    rw [h]
    norm_num [wDicEnv]
  · exact (selectorDIC_dic_spec wDicEnv (by simp [wDicEnv])).2.2

/-! ## C10 -/

/-- C10: on a vocabulary containing only the current word (no other words),
`SelectorDIC.select` returns `None` without raising: the division by the zero
count of other words fails inside each candidate's handler, so every
candidate is skipped. -/
theorem selectorDIC_single_word (env : DICEnv) (h : env.others = []) :
    SelectorDIC.select env = none := by
  have tryNone : ∀ n, dicTry env n = none := by
    intro n
    cases hf : env.fit n with
    | none => simp only [dicTry, hf]
    | some m =>
      cases hs : env.scoreSelf m with
      | none => simp only [dicTry, hf, hs]
      | some logL =>
        have ha : scoreAll (env.scoreOther m) env.others = some [] := by
          rw [h]
          rfl
        have hlen : env.others.length = 0 := by rw [h]; rfl
        simp only [dicTry, hf, hs, ha, if_pos hlen]
  have hcand : (candRange env.min_n env.max_n).filterMap (dicTry env) = [] := by
    rw [List.filterMap_eq_nil_iff]
    intro a _
    exact tryNone a
  rw [selectorDIC_eq, hcand]
  rfl

/-- Witness for C10 at `w10Env` (empty other-word list, all oracles
succeeding). -/
theorem selectorDIC_single_word_witness : SelectorDIC.select w10Env = none :=
  selectorDIC_single_word w10Env rfl

/-! ## C5 -/

/-- C5: with exactly one sequence, each candidate produces its (at most one)
log-likelihood sample from the full-data fit-and-score — exactly one when
both succeed — and the fold oracles are never consulted (no fold split);
with two or more sequences each candidate runs exactly the
`KFold(min(len(sequences), 3))` fold loop: `min(3, m)` folds, whose held-out
blocks enumerate every sequence index exactly once, in order. -/
theorem selectorCV_folds_spec :
    (∀ (env : CVEnv) (n : Nat) (m : GaussianHMM) (logL : ℚ), env.seqCount = 1 →
      env.fitFull n = some m → env.scoreFull m = some logL →
      cvSamples env n = [logL]) ∧
    (∀ (env : CVEnv) (n : Nat) (mv : Option GaussianHMM), env.seqCount = 1 →
      cvTryN env n mv = Except.ok (cvSamples env n, env.fitFull n)) ∧
    (∀ (env : CVEnv) (f : Nat → List Nat → Option GaussianHMM)
      (g : GaussianHMM → List Nat → Option ℚ), env.seqCount = 1 →
      SelectorCV.select { env with fitFold := f, scoreFold := g } =
        SelectorCV.select env) ∧
    (∀ m : Nat, 2 ≤ m → (kfoldSplits m (min m 3)).length = min 3 m) ∧
    (∀ m : Nat, 2 ≤ m → (kfoldTests m (min m 3)).flatten = List.range m) ∧
    (∀ (env : CVEnv) (n : Nat) (mv : Option GaussianHMM), 2 ≤ env.seqCount →
      cvTryN env n mv =
        Except.ok (cvFoldLoop env n
          (kfoldSplits env.seqCount (min env.seqCount 3)) [] mv)) := by
  refine ⟨?_, ?_, ?_, ?_, ?_, ?_⟩
  · intro env n m logL h1 hf hs
    simp only [cvSamples, if_pos h1, hf, hs]
  · intro env n mv h1
    cases hf : env.fitFull n with
    | none => simp only [cvTryN, if_pos h1, cvSamples, if_pos h1, hf]
    | some m =>
      cases hs : env.scoreFull m with
      | none => simp only [cvTryN, if_pos h1, cvSamples, if_pos h1, hf, hs]
      | some logL => simp only [cvTryN, if_pos h1, cvSamples, if_pos h1, hf, hs]
  · intro env f g h1
    have hne : env.seqCount ≠ 0 := by omega
    have hne2 : ({ env with fitFold := f, scoreFold := g } : CVEnv).seqCount ≠ 0 := hne
    rw [selectorCV_eq _ hne2, selectorCV_eq env hne, cvCandsOf_no_fold env f g h1]
  · intro m hm
    rw [kfoldSplits_length]
    omega
  · intro m hm
    exact kfoldTests_flatten m (min m 3) (by omega)
  · intro env n mv h2
    rw [cvTryN, if_neg (by omega : ¬env.seqCount = 1),
      if_neg (by omega : ¬min env.seqCount 3 < 2)]

/-- A CV environment with a single sequence, the full-data fit and score
succeeding, the fold oracles always failing. -/
def c5Env : CVEnv :=
  { min_n := 2, max_n := 2, seqCount := 1,
    fitFull := fun n => some ⟨0, n, 2⟩, scoreFull := fun _ => some 7,
    fitFold := fun _ _ => none, scoreFold := fun _ _ => none }

/-- Witness for C5: the degenerate path at `c5Env` yields exactly one sample,
and a five-sequence word gets `min 3 5 = 3` folds. -/
theorem selectorCV_folds_spec_witness :
    cvSamples c5Env 2 = [7] ∧ (kfoldSplits 5 (min 5 3)).length = min 3 5 :=
  ⟨selectorCV_folds_spec.1 c5Env 2 ⟨0, 2, 2⟩ 7 rfl rfl rfl,
   selectorCV_folds_spec.2.2.2.1 5 (by omega)⟩

/-! ## C7 -/

/-- C7 (amended): for a word with two or more sequences, the model associated
with each candidate `n` — in particular the winning one — is the model
produced by the last fold of that `n`'s iteration *whose fit succeeded* (the
last fold evaluated only when every fold's fit succeeds), and the full-data
fit/score oracles are never consulted: no model is retrained on the full
training set. -/
theorem selectorCV_last_fold (env : CVEnv) (h2 : 2 ≤ env.seqCount) :
    SelectorCV.select env =
      Except.ok
        (match firstMaxBy Prod.fst (cvCandsOf env (candRange env.min_n env.max_n)) with
         | none => none
         | some y => y.2) ∧
    (∀ n : Nat, cvModelOf env n =
      lastFitOf env n (kfoldSplits env.seqCount (min env.seqCount 3))) ∧
    (∀ (f : Nat → Option GaussianHMM) (g : GaussianHMM → Option ℚ),
      SelectorCV.select { env with fitFull := f, scoreFull := g } =
        SelectorCV.select env) := by
  have hne : env.seqCount ≠ 0 := by omega
  have h1 : env.seqCount ≠ 1 := by omega
  refine ⟨selectorCV_eq env hne, ?_, ?_⟩
  · intro n
    rw [cvModelOf, if_neg h1, cvFoldLast_eq_lastFitOf]
  · intro f g
    have hne2 : ({ env with fitFull := f, scoreFull := g } : CVEnv).seqCount ≠ 0 := hne
    rw [selectorCV_eq _ hne2, selectorCV_eq env hne, cvCandsOf_no_full env f g h1]

/-- A CV environment on three sequences with a single candidate `n = 2`: the
first two folds fit (models `mId = 0` and `mId = 1`) and score, the last
fold's fit fails. -/
def c7Env : CVEnv :=
  { min_n := 2, max_n := 2, seqCount := 3,
    fitFull := fun _ => none, scoreFull := fun _ => none,
    fitFold := fun n tr =>
      if tr = [1, 2] then some ⟨0, n, 2⟩
      else if tr = [0, 2] then some ⟨1, n, 2⟩ else none,
    scoreFold := fun m _ => if m.mId = 0 then some 1 else some 2 }

/-- C7 counterexample to the claim as stated: at `c7Env` the winning (only)
candidate's *last* fold (train `[0, 1]`, held-out `[2]`) produced no model —
its fit failed — yet `select` returns a model, namely the one produced by the
*second* fold (`mId = 1`): the returned model is the last *successful* fit,
not the product of the last fold evaluated. -/
theorem selectorCV_last_fold_cex :
    SelectorCV.select c7Env = Except.ok (some ⟨1, 2, 2⟩) ∧
    candRange c7Env.min_n c7Env.max_n = [2] ∧
    kfoldSplits c7Env.seqCount (min c7Env.seqCount 3) =
      [([1, 2], [0]), ([0, 2], [1]), ([0, 1], [2])] ∧
    c7Env.fitFold 2 [0, 1] = none ∧
    c7Env.fitFold 2 [0, 2] = some ⟨1, 2, 2⟩ :=
  ⟨rfl, rfl, by decide, rfl, rfl⟩

/-- Witness for C7's amended claim at `c7Env`. -/
theorem selectorCV_last_fold_witness :
    cvModelOf c7Env 2 =
      lastFitOf c7Env 2 (kfoldSplits c7Env.seqCount (min c7Env.seqCount 3)) :=
  (selectorCV_last_fold c7Env (by decide)).2.1 2

/-! ## C8 -/

/-- C8 (amended): for every word, whenever at least one candidate state count
is evaluated successfully by the strategy's criterion, `select` returns a
non-absent model whose hidden-state count lies within the inclusive
`[min_n_components, max_n_components]` range for BIC, DIC, and
CrossValidation (assuming the fit oracle tags models with the requested state
count, as `GaussianHMM(n_components=num_states)` does); `SelectorConstant`,
however, returns a model whose state count equals `n_constant`, which lies in
the range only when `n_constant` does. -/
theorem selector_state_count_range :
    (∀ env : BICEnv, (∀ (n : Nat) (m : GaussianHMM), env.fit n = some m → m.n_components = n) →
      ∀ n : Nat, n ∈ candRange env.min_n env.max_n → bicTry env n ≠ none →
      ∃ mdl, SelectorBIC.select env = some mdl ∧
        env.min_n ≤ mdl.n_components ∧ mdl.n_components ≤ env.max_n) ∧
    (∀ env : DICEnv, (∀ (n : Nat) (m : GaussianHMM), env.fit n = some m → m.n_components = n) →
      ∀ n : Nat, n ∈ candRange env.min_n env.max_n → dicTry env n ≠ none →
      ∃ mdl, SelectorDIC.select env = some mdl ∧
        env.min_n ≤ mdl.n_components ∧ mdl.n_components ≤ env.max_n) ∧
    (∀ env : CVEnv, (∀ (n : Nat) (m : GaussianHMM), env.fitFull n = some m → m.n_components = n) →
      (∀ (n : Nat) (tr : List Nat) (m : GaussianHMM), env.fitFold n tr = some m → m.n_components = n) →
      env.seqCount ≠ 0 →
      ∀ n : Nat, n ∈ candRange env.min_n env.max_n → cvSamples env n ≠ [] →
      ∃ mdl, SelectorCV.select env = Except.ok (some mdl) ∧
        env.min_n ≤ mdl.n_components ∧ mdl.n_components ≤ env.max_n) ∧
    (∀ env : ConstantEnv, (∀ (n : Nat) (m : GaussianHMM), env.fit n = some m → m.n_components = n) →
      ∀ mdl : GaussianHMM, SelectorConstant.select env = some mdl →
      mdl.n_components = env.n_constant) := by
  refine ⟨?_, ?_, ?_, ?_⟩
  · intro env hfc n hn ht
    obtain ⟨c, hc⟩ := Option.ne_none_iff_exists'.mp ht
    have hmem : c ∈ (candRange env.min_n env.max_n).filterMap (bicTry env) :=
      List.mem_filterMap.mpr ⟨n, hn, hc⟩
    obtain ⟨y, hy⟩ :=
      firstMinBy_of_ne_nil Prod.fst _ (List.ne_nil_of_mem hmem)
    obtain ⟨n2, hn2, hbt⟩ := List.mem_filterMap.mp (firstMinBy_mem Prod.fst _ y hy)
    have hcomp := hfc n2 y.2 (bicTry_fit env n2 y hbt)
    obtain ⟨hl, hr⟩ := candRange_mem.mp hn2
    refine ⟨y.2, ?_, by omega, by omega⟩
    rw [selectorBIC_eq, hy]
  · intro env hfc n hn ht
    obtain ⟨c, hc⟩ := Option.ne_none_iff_exists'.mp ht
    have hmem : c ∈ (candRange env.min_n env.max_n).filterMap (dicTry env) :=
      List.mem_filterMap.mpr ⟨n, hn, hc⟩
    obtain ⟨y, hy⟩ :=
      firstMaxBy_of_ne_nil Prod.fst _ (List.ne_nil_of_mem hmem)
    obtain ⟨n2, hn2, hbt⟩ := List.mem_filterMap.mp (firstMaxBy_mem Prod.fst _ y hy)
    have hcomp := hfc n2 y.2 (dicTry_fit env n2 y hbt)
    obtain ⟨hl, hr⟩ := candRange_mem.mp hn2
    refine ⟨y.2, ?_, by omega, by omega⟩
    rw [selectorDIC_eq, hy]
  · intro env hfull hfold hne n hn hs
    have hfun : (match cvSamples env n with
        | [] => (none : Option (ℚ × Option GaussianHMM))
        | _ :: _ => some (listMean (cvSamples env n), cvModelOf env n)) =
        some (listMean (cvSamples env n), cvModelOf env n) := by
      cases hsam : cvSamples env n with
      | nil => exact absurd hsam hs
      | cons a l => rfl
    have hmem : (listMean (cvSamples env n), cvModelOf env n) ∈
        cvCandsOf env (candRange env.min_n env.max_n) := by
      rw [cvCandsOf]
      exact List.mem_filterMap.mpr ⟨n, hn, hfun⟩
    obtain ⟨y, hy⟩ := firstMaxBy_of_ne_nil Prod.fst _ (List.ne_nil_of_mem hmem)
    have hymem := firstMaxBy_mem Prod.fst _ y hy
    rw [cvCandsOf] at hymem
    obtain ⟨n2, hn2, hfn2⟩ := List.mem_filterMap.mp hymem
    cases hsam2 : cvSamples env n2 with
    | nil =>
      rw [hsam2] at hfn2
      exact Option.noConfusion hfn2
    | cons a l =>
      rw [hsam2] at hfn2
      injection hfn2 with hfn2
      have hy2 : y.2 = cvModelOf env n2 := by rw [← hfn2]
      obtain ⟨mdl, hmdl⟩ := cvModelOf_some env n2 (by rw [hsam2]; simp)
      have hcomp : mdl.n_components = n2 := by
        by_cases h1 : env.seqCount = 1
        · rw [cvModelOf, if_pos h1] at hmdl
          exact hfull n2 mdl hmdl
        · rw [cvModelOf, if_neg h1, cvFoldLast_eq_lastFitOf] at hmdl
          obtain ⟨p, _, hfitp⟩ := lastFitOf_mem env n2 _ mdl hmdl
          exact hfold n2 p.1 mdl hfitp
      obtain ⟨hl, hr⟩ := candRange_mem.mp hn2
      refine ⟨mdl, ?_, by omega, by omega⟩
      rw [selectorCV_eq env hne, hy]
      show Except.ok y.2 = Except.ok (some mdl)
      rw [hy2, hmdl]
  · intro env hfc mdl hsel
    exact hfc env.n_constant mdl hsel

/-- A Constant environment whose configured constant count `15` lies outside
the configured `[2, 10]` search range; the fit oracle succeeds and tags the
model with the requested state count. -/
def c8Env : ConstantEnv :=
  { n_constant := 15, min_n := 2, max_n := 10, fit := fun k => some ⟨7, k, 2⟩ }

/-- C8 counterexample to the claim as stated: at `c8Env` the (state-count
consistent) fit succeeds, so `SelectorConstant.select` returns a model — but
its hidden-state count `15` is outside `[min_n_components, max_n_components]
= [2, 10]`. -/
theorem selector_state_count_range_cex :
    SelectorConstant.select c8Env = some ⟨7, 15, 2⟩ ∧
    (∀ (n : Nat) (m : GaussianHMM), c8Env.fit n = some m → m.n_components = n) ∧
    ¬(c8Env.min_n ≤ (15 : Nat) ∧ (15 : Nat) ≤ c8Env.max_n) := by
  refine ⟨rfl, ?_, by decide⟩
  intro n m h
  injection h with h
  rw [← h]

/-- Witness for C8 (amended) at `wBicEnv` and `c8Env`. -/
theorem selector_state_count_range_witness :
    (∃ mdl, SelectorBIC.select wBicEnv = some mdl ∧
      wBicEnv.min_n ≤ mdl.n_components ∧ mdl.n_components ≤ wBicEnv.max_n) ∧
    ((⟨7, 15, 2⟩ : GaussianHMM).n_components = c8Env.n_constant) := by
  constructor
  · apply selector_state_count_range.1 wBicEnv ?_ 2 ?_ ?_
    · intro n m h
      injection h with h
      rw [← h]
    · decide
    · simp [bicTry, wBicEnv]
  · exact selector_state_count_range.2.2.2 c8Env
      (by intro n m h; injection h with h; rw [← h]) ⟨7, 15, 2⟩ rfl

/-! ## C9 -/

/-- C9: whenever `recognize` completes, every test sequence whose *first*
`(word, model)` pair in iteration order scores successfully gets the recorded
`ProbabilityRow` of all scores (failures as `-infinity`) and a guess equal to
the first key in iteration order achieving the row's maximum recorded value:
after that first success the stale `logL` compared on a later word's scoring
failure never strictly exceeds the running best, so a failure cannot change
the guess. -/
theorem recognize_fresh_guess (env : RecEnv) (models : List (Nat × GaussianHMM))
    (tests : List Nat) (probs : List (List (Nat × WithBot ℚ)))
    (guesses : List (Option Nat))
    (hr : recognize env models tests = some (probs, guesses))
    (j t1 w1 : Nat) (m1 : GaussianHMM) (mrest : List (Nat × GaussianHMM)) (l1 : ℚ)
    (hj : tests[j]? = some t1) (hm : models = (w1, m1) :: mrest)
    (hsc : env.score m1 t1 = some l1) :
    probs[j]? = some (rowOf env t1 models) ∧
    guesses[j]? = some (guessOf (rowOf env t1 models)) := by
  obtain ⟨h1, gl, h2, h3, h4⟩ :=
    recTestLoop_spec env models tests [] [] none probs guesses hr
  constructor
  · rw [h1, List.nil_append, List.getElem?_map, hj]
    rfl
  · rw [h2, List.nil_append]
    exact h4 j t1 w1 m1 mrest l1 hj hm hsc

/-- Models used by the concrete recognizer runs. -/
def cMA : GaussianHMM := ⟨0, 3, 2⟩

/-- Second model used by the concrete recognizer runs. -/
def cMB : GaussianHMM := ⟨1, 3, 2⟩

/-- A recognizer environment over two test sequences (tags `0` and `1`) where
word `0`'s model scores `10` on the first sequence but fails on the second,
and word `1`'s model scores `1` and `0`. -/
def cRecEnv : RecEnv :=
  ⟨fun m t =>
    if m.mId = 0 then (if t = 0 then some 10 else none)
    else (if t = 0 then some 1 else some 0)⟩

/-- A recognizer environment where both models score on every sequence. -/
def cRecEnvOk : RecEnv := ⟨fun m _ => if m.mId = 0 then some 3 else some 5⟩

/-- A recognizer environment where every score fails. -/
def cRecEnvFail : RecEnv := ⟨fun _ _ => none⟩

/-- Witness for C9 at `cRecEnvOk` on one test sequence: word `1`'s score `5`
beats word `0`'s score `3`, and the guess is the row's argmax. -/
theorem recognize_fresh_guess_witness :
    ([[(0, ((3 : ℚ) : WithBot ℚ)), (1, ((5 : ℚ) : WithBot ℚ))]]
        : List (List (Nat × WithBot ℚ)))[0]? =
      some (rowOf cRecEnvOk 0 [(0, cMA), (1, cMB)]) ∧
    ([some 1] : List (Option Nat))[0]? =
      some (guessOf (rowOf cRecEnvOk 0 [(0, cMA), (1, cMB)])) := by
  apply recognize_fresh_guess cRecEnvOk [(0, cMA), (1, cMB)] [0]
    [[(0, ((3 : ℚ) : WithBot ℚ)), (1, ((5 : ℚ) : WithBot ℚ))]] [some 1]
    ?_ 0 0 0 cMA [(1, cMB)] 3 rfl rfl rfl
  norm_num [recognize, recTestLoop, recWordLoop, cRecEnvOk, cMA, cMB]

/-! ## C2 -/

/-- C2, failing input (the claim is the spec's intent; the code diverges):
on `cRecEnv` with models `[(0, cMA), (1, cMB)]` and tests `[0, 1]`,
`recognize` does return `T = 2` rows of `W = 2` entries in order, with the
failed entry exactly `-infinity` — but the guess for the second sequence is
word `0` (whose recorded value is `-infinity`), because the comparison reused
the stale `logL = 1` left by word `1`'s score on the *previous* sequence; the
first key achieving the row's maximum is word `1`. -/
theorem recognize_output_eval :
    recognize cRecEnv [(0, cMA), (1, cMB)] [0, 1] =
      some ([[(0, ((10 : ℚ) : WithBot ℚ)), (1, ((1 : ℚ) : WithBot ℚ))],
             [(0, (⊥ : WithBot ℚ)), (1, ((0 : ℚ) : WithBot ℚ))]],
            [some 0, some 0]) ∧
    guessOf [(0, (⊥ : WithBot ℚ)), (1, ((0 : ℚ) : WithBot ℚ))] = some 1 := by
  constructor
  · norm_num [recognize, recTestLoop, recWordLoop, cRecEnv, cMA, cMB]
  · norm_num [guessOf, firstMaxBy, bot_lt_iff_ne_bot]

/-! ## C6 -/

/-- C6, failing input (the claim is the spec's stated requirement; the code
diverges): on the second test sequence of `cRecEnv`, word `0`'s scoring fails
(`none`), its entry is recorded as `-infinity`, yet the returned guess for
that sequence is word `0`: the running-best comparison used the stale
function-scope `logL` (word `1`'s score `1` from the previous sequence)
rather than the just-recorded `-infinity`, which could never win.  Under
just-recorded-value semantics the guess would be word `1`. -/
theorem recognize_stale_compare_eval :
    (recognize cRecEnv [(0, cMA), (1, cMB)] [0, 1]).map (fun r => r.2) =
      some [some 0, some 0] ∧
    cRecEnv.score cMA 1 = none ∧
    guessOf (rowOf cRecEnv 1 [(0, cMA), (1, cMB)]) = some 1 := by
  refine ⟨?_, rfl, ?_⟩
  · norm_num [recognize, recTestLoop, recWordLoop, cRecEnv, cMA, cMB]
  · norm_num [guessOf, rowOf, firstMaxBy, cRecEnv, cMA, cMB, bot_lt_iff_ne_bot]

/-! ## C3 -/

/-- C3, failing input (the claim states the spec's recovery policy; the code
diverges in the recognizer): when the very first `(word, model)` scoring of
the run fails, the failure handler records `-infinity` but the subsequent
comparison reads the never-assigned function-scope `logL`, raising an
uncaught `UnboundLocalError` (modelled by the `none` result): the error is
fatal to the whole recognition run, so not every failure is recovered at its
(word, model) unit. -/
theorem recognize_fatal_eval :
    recognize cRecEnvFail [(0, cMA)] [0] = none ∧
    cRecEnvFail.score cMA 0 = none := ⟨rfl, rfl⟩
